import Mathlib

set_option maxRecDepth 40000

/-!
Verification of the `anchor-compressed-notes` program: a shallow embedding of
`programs/anchor-compressed-notes/src/lib.rs` together with the append-only
concurrent Merkle tree log engine that the program drives through CPI.  The
wrapper's definitions (`createNoteTree`, `appendNote`, `NoteLog`, the PDA
authority derivation) are translated from the source; the tree engine itself
(`initialize`, `Tree.append`, `Tree.replace`, the change-log buffer) lives in
an external compression crate, so those definitions are modelled from the
specification's description of that engine.
-/

namespace CompressedNotes

/-! ## Keccak-256

Modelled from the spec: the Leaf Hasher contract (`hash(payload: bytes) ->
Hash`, deterministic, 32-byte output) is Keccak-256, the hash invoked by the
source line `keccak::hashv(&[note.as_bytes()])`.  The permutation below is the
standard Keccak-f[1600] on 25 lanes of 64 bits, lanes kept as `Nat` reduced
mod `2^64`; the sponge uses rate 136 bytes and the original Keccak padding
byte `0x01`. -/

def mask64 : Nat := 2 ^ 64 - 1

def rotl64 (x n : Nat) : Nat := ((x <<< n) ||| (x >>> (64 - n))) &&& mask64

def not64 (x : Nat) : Nat := mask64 ^^^ x

/-- One lane of the state, `0` when out of range. -/
def lget (s : List Nat) (i : Nat) : Nat := s.getD i 0

/-- One step of the degree-8 LFSR of the Keccak round-constant schedule
(polynomial x^8 + x^6 + x^5 + x^4 + 1). -/
def lfsrStep (r : Nat) : Nat := ((r <<< 1) ^^^ ((r >>> 7) * 0x71)) &&& 0xFF

def lfsrIter : Nat → Nat
  | 0 => 1
  | t + 1 => lfsrStep (lfsrIter t)

/-- The bit rc(t) of the round-constant schedule. -/
def rcBit (t : Nat) : Nat := lfsrIter t &&& 1

/-- The round constant of round `i`: bit rc(j + 7 i) placed at position
`2 ^ j - 1` for j = 0..6. -/
def roundConstant (i : Nat) : Nat :=
  (List.range 7).foldl (fun acc j => acc ||| (rcBit (j + 7 * i) <<< (2 ^ j - 1))) 0

/-- Round constants of Keccak-f[1600]. -/
def keccakRC : List Nat := (List.range 24).map roundConstant

/-- Rotation offsets of the step ρ, flattened with lane `(x, y)` at index
`x + 5 * y`: walking lanes from `(1, 0)` by `(x, y) ↦ (y, 2 x + 3 y)`, lane
number `t` receives the triangular offset `(t + 1)(t + 2) / 2 mod 64`. -/
def keccakRot : List Nat :=
  ((List.range 24).foldl
    (fun (st : (Nat × Nat) × List Nat) t =>
      ((st.1.2, (2 * st.1.1 + 3 * st.1.2) % 5),
       st.2.set (st.1.1 + 5 * st.1.2) (((t + 1) * (t + 2) / 2) % 64)))
    ((1, 0), List.replicate 25 0)).2

def theta (s : List Nat) : List Nat :=
  let c := (List.range 5).map fun x =>
    lget s x ^^^ lget s (x + 5) ^^^ lget s (x + 10) ^^^ lget s (x + 15) ^^^ lget s (x + 20)
  let d := (List.range 5).map fun x =>
    lget c ((x + 4) % 5) ^^^ rotl64 (lget c ((x + 1) % 5)) 1
  (List.range 25).map fun i => lget s i ^^^ lget d (i % 5)

def rhoPi (s : List Nat) : List Nat :=
  (List.range 25).foldl
    (fun acc i =>
      let x := i % 5
      let y := i / 5
      acc.set (y + 5 * ((2 * x + 3 * y) % 5)) (rotl64 (lget s i) (lget keccakRot i)))
    (List.replicate 25 0)

def chi (s : List Nat) : List Nat :=
  (List.range 25).map fun i =>
    let x := i % 5
    let y := i / 5
    lget s i ^^^ (not64 (lget s ((x + 1) % 5 + 5 * y)) &&& lget s ((x + 2) % 5 + 5 * y))

def iota (rc : Nat) (s : List Nat) : List Nat :=
  s.set 0 (lget s 0 ^^^ rc)

def keccakF (s : List Nat) : List Nat :=
  keccakRC.foldl (fun st rc => iota rc (chi (rhoPi (theta st)))) s

/-- Keccak padding (pad10*1 with domain byte `0x01`) to a multiple of the
rate, 136 bytes. -/
def keccakPad (msg : List Nat) : List Nat :=
  let padLen := 136 - msg.length % 136
  if padLen = 1 then msg ++ [0x81]
  else msg ++ [0x01] ++ List.replicate (padLen - 2) 0 ++ [0x80]

/-- Eight bytes, little-endian, to one 64-bit lane. -/
def bytesToLane (bs : List Nat) : Nat :=
  bs.foldr (fun b acc => acc * 256 + b % 256) 0

/-- Absorb one 136-byte block into the sponge state. -/
def absorbBlock (s : List Nat) (block : List Nat) : List Nat :=
  let s := (List.range 25).map fun i =>
    if i < 17 then lget s i ^^^ bytesToLane ((block.drop (8 * i)).take 8) else lget s i
  keccakF s

def absorbBlocks : Nat → List Nat → List Nat → List Nat
  | 0, s, _ => s
  | n + 1, s, msg => absorbBlocks n (absorbBlock s (msg.take 136)) (msg.drop 136)

/-- One 64-bit lane to eight bytes, little-endian. -/
def laneToBytes (x : Nat) : List Nat :=
  (List.range 8).map fun i => (x >>> (8 * i)) % 256

/-- Keccak-256 of a byte sequence: 32-byte digest. -/
def keccak256 (msg : List Nat) : List Nat :=
  let padded := keccakPad msg
  let s := absorbBlocks (padded.length / 136) (List.replicate 25 0) padded
  ((List.range 4).map fun i => laneToBytes (lget s i)).flatten

/-! ## The concurrent Merkle tree log engine

The engine lives in the external compression crate the program CPIs into; the
definitions below are modelled from the specification of that engine (sections
3, 4.2, 4.3 and 7 of the design). -/

/-- A 32-byte hash value. -/
abbrev Hash := List Nat

/-- The zero leaf occupying every unused position. -/
def zeroHash : Hash := List.replicate 32 0

/-- Modelled from the spec: each internal node is the hash of its two
children, using the same hash function as the leaves. -/
def hashPair (a b : Hash) : Hash := keccak256 (a ++ b)

/-- Combine adjacent pairs of one tree level into the level above. -/
def levelUp : List Hash → List Hash
  | a :: b :: rest => hashPair a b :: levelUp rest
  | l => l

/-- Leaves padded with the zero leaf to the fixed capacity `2 ^ depth`. -/
def paddedLeaves (depth : Nat) (leaves : List Hash) : List Hash :=
  leaves ++ List.replicate (2 ^ depth - leaves.length) zeroHash

def iterLevelUp : Nat → List Hash → List Hash
  | 0, l => l
  | d + 1, l => iterLevelUp d (levelUp l)

/-- Modelled from the spec: the Merkle root of a depth-`depth` tree over the
accepted leaf sequence (absent leaves are the zero leaf). -/
def merkleRoot (depth : Nat) (leaves : List Hash) : Hash :=
  (iterLevelUp depth (paddedLeaves depth leaves)).headD zeroHash

/-- The canonical empty-tree root of a depth. -/
def emptyRoot (depth : Nat) : Hash := merkleRoot depth []

def proofPathAux : Nat → List Hash → Nat → List Hash
  | 0, _, _ => []
  | d + 1, lvl, idx => lvl.getD (idx ^^^ 1) zeroHash :: proofPathAux d (levelUp lvl) (idx / 2)

/-- The sibling path, bottom-up, of the leaf at `index`. -/
def proofPath (depth : Nat) (leaves : List Hash) (index : Nat) : List Hash :=
  proofPathAux depth (paddedLeaves depth leaves) index

/-- Recompute a root from a leaf, its index and a sibling path. -/
def hashClimb (leaf : Hash) (index : Nat) : List Hash → Hash
  | [] => leaf
  | sib :: rest =>
    hashClimb (if index % 2 = 0 then hashPair leaf sib else hashPair sib leaf) (index / 2) rest

/-- Modelled from the spec: the distinguishable failure kinds surfaced to the
caller of a mutating operation. -/
inductive TreeError
  | InvalidConfig
  | TreeFull
  | Unauthorized
  | ProofMismatch
  | ConcurrentModificationConflict
  deriving DecidableEq, Repr

/-- Modelled from the spec: one change-log record, holding the root after the
mutation, the sibling path of the mutated leaf, its index, and the sequence
number of the mutation. -/
structure ChangeLogEntry where
  root : Hash
  path : List Hash
  index : Nat
  seq : Nat
  deriving DecidableEq, Repr

/-- Modelled from the spec: ring-buffer push, keeping the last `bufSize`
entries, oldest evicted first. -/
def pushEntry (bufSize : Nat) (log : List ChangeLogEntry) (e : ChangeLogEntry) :
    List ChangeLogEntry :=
  let l := log ++ [e]
  l.drop (l.length - bufSize)

/-- Modelled from the spec: scan the resident entries for one whose stored
path at `index` matches the presented proof. -/
def findValidProof (log : List ChangeLogEntry) (index : Nat) (proof : List Hash) :
    Option ChangeLogEntry :=
  log.reverse.find? fun e => decide (e.index = index ∧ e.path = proof)

/-- Modelled from the spec: the persisted tree state (the accepted leaf
sequence is kept here to express the root invariant; on chain only the root,
the change log and the counters are stored). -/
structure Tree where
  depth : Nat
  bufferSize : Nat
  leaves : List Hash
  root : Hash
  changelog : List ChangeLogEntry
  seq : Nat
  deriving DecidableEq, Repr

/-- Modelled from the spec: the supported maxima are implementation-defined;
we fix the published limits of the compression engine. -/
def maxTreeDepth : Nat := 30

def maxTreeBufferSize : Nat := 2048

/-- A configuration is supported when depth and buffer size are positive and
within the maxima. -/
def validConfig (depth bufferSize : Nat) : Prop :=
  0 < depth ∧ depth ≤ maxTreeDepth ∧ 0 < bufferSize ∧ bufferSize ≤ maxTreeBufferSize

instance (d b : Nat) : Decidable (validConfig d b) := by
  unfold validConfig
  exact inferInstance

/-- Modelled from the spec: `initialize(depth, buffer_size)` validates the
configuration and produces a tree with the canonical empty root and sequence
number 0; the change log starts with the entry for the empty root. -/
def initTree (depth bufferSize : Nat) : Except TreeError Tree :=
  if validConfig depth bufferSize then
    Except.ok
      { depth := depth
        bufferSize := bufferSize
        leaves := []
        root := emptyRoot depth
        changelog := [{ root := emptyRoot depth, path := proofPath depth [] 0, index := 0, seq := 0 }]
        seq := 0 }
  else Except.error TreeError.InvalidConfig

/-- Modelled from the spec: append inserts at the next free index (the
sequence number as index counter), recomputes the root, pushes a change-log
entry and increments the sequence number; it fails with `TreeFull` when all
`2 ^ depth` leaves are occupied. -/
def Tree.append (t : Tree) (leaf : Hash) : Except TreeError (Tree × Nat) :=
  if t.leaves.length < 2 ^ t.depth then
    let index := t.seq
    let leaves := t.leaves ++ [leaf]
    let root := merkleRoot t.depth leaves
    let entry : ChangeLogEntry :=
      { root := root, path := proofPath t.depth leaves index, index := index, seq := t.seq + 1 }
    Except.ok
      ({ t with leaves := leaves, root := root,
                changelog := pushEntry t.bufferSize t.changelog entry, seq := t.seq + 1 },
       index)
  else Except.error TreeError.TreeFull

/-- Modelled from the spec: replace validates the proof against the current
root or any entry still resident in the change-log buffer; a proof matching
no resident entry fails with `ConcurrentModificationConflict`, and one that
matches an entry but does not resolve to the old leaf hash at the index fails
with `ProofMismatch`. -/
def Tree.replace (t : Tree) (index : Nat) (oldLeaf newLeaf : Hash) (proof : List Hash) :
    Except TreeError Tree :=
  let leaves := t.leaves.set index newLeaf
  let root := merkleRoot t.depth leaves
  let entry : ChangeLogEntry :=
    { root := root, path := proofPath t.depth leaves index, index := index, seq := t.seq + 1 }
  let updated : Tree :=
    { t with leaves := leaves, root := root,
             changelog := pushEntry t.bufferSize t.changelog entry, seq := t.seq + 1 }
  if hashClimb oldLeaf index proof = t.root then Except.ok updated
  else
    match findValidProof t.changelog index proof with
    | none => Except.error TreeError.ConcurrentModificationConflict
    | some e =>
      if hashClimb oldLeaf index proof = e.root then Except.ok updated
      else Except.error TreeError.ProofMismatch

/-! ## The wrapper program

Translated from `programs/anchor-compressed-notes/src/lib.rs`. -/

/-- The program id of `declare_id!`, an opaque process-wide constant: the 32
bytes behind the base58 string of the source. -/
def programId : List Nat :=
  [6, 182, 157, 213, 83, 128, 213, 143, 20, 168, 131, 54, 194, 106, 126, 202,
   19, 65, 212, 61, 14, 102, 13, 156, 139, 184, 182, 214, 76, 71, 132, 144]

/-- Modelled from the spec: the bump seed found for the derived authority of a
tree address. -/
def bumpOf (treeAddr : List Nat) : Nat := (keccak256 (treeAddr ++ programId)).headD 0

/-- Modelled from the spec: the runtime turns a list of signer seeds into the
derived signing Identity (the generic deterministic-derivation scheme standing
in for the account model's PDA derivation). -/
def signerFor (seeds : List (List Nat)) : List Nat := keccak256 (seeds.flatten ++ programId)

/-- The derived mutation Authority of a tree address: the Identity obtained
from the tree's own address plus its bump seed, under `programId`. -/
def derive (treeAddr : List Nat) : List Nat := signerFor [treeAddr, [bumpOf treeAddr]]

/-- The `signer_seeds` built in `create_note_tree`:
`[merkle_tree.as_ref(), [bump]]`. -/
def createTreeSignerSeeds (merkleTree : List Nat) : List (List Nat) :=
  [merkleTree, [bumpOf merkleTree]]

/-- The `signer_seeds` built in `append_note`:
`[merkle_tree.as_ref(), [bump]]`. -/
def appendNoteSignerSeeds (merkleTree : List Nat) : List (List Nat) :=
  [merkleTree, [bumpOf merkleTree]]

/-- The schema logged through the noop program (`struct NoteLog`): the leaf
node hash and the note message, kept as its byte sequence. -/
structure NoteLog where
  leaf_node : List Nat
  note : List Nat
  deriving DecidableEq, Repr

/-- `NoteLog::new`. -/
def NoteLog.new (leaf_node : List Nat) (note : List Nat) : NoteLog :=
  { leaf_node := leaf_node, note := note }

/-- The on-chain tree account as the wrapper sees it: its address, the engine
state behind it, and the stored mutation authority, set once when the tree is
initialized. -/
structure TreeAccount where
  address : List Nat
  tree : Tree
  authority : List Nat
  deriving DecidableEq, Repr

/-- `create_note_tree`: initializes an empty merkle tree of the given depth
and buffer size through CPI, signed with (and owned by) the authority derived
from the merkle tree account's address. -/
def createNoteTree (merkleTree : List Nat) (maxDepth maxBufferSize : Nat) :
    Except TreeError TreeAccount :=
  match initTree maxDepth maxBufferSize with
  | Except.ok t =>
    Except.ok { address := merkleTree, tree := t,
                authority := signerFor (createTreeSignerSeeds merkleTree) }
  | Except.error e => Except.error e

/-- `append_note`: hashes the note with keccak into the leaf node, builds the
`NoteLog` from that hash and the note, and appends the leaf through CPI signed
with the derived tree authority.  The engine admits the mutation only when the
presented signer equals the tree's stored authority; on success the call
returns the new account state, the log record and the assigned leaf index. -/
def appendNote (caller : List Nat) (acc : TreeAccount) (note : List Nat) :
    Except TreeError (TreeAccount × NoteLog × Nat) :=
  let leafNode := keccak256 note
  let noteLog := NoteLog.new leafNode note
  if caller = acc.authority then
    match acc.tree.append leafNode with
    | Except.ok (t, index) => Except.ok ({ acc with tree := t }, noteLog, index)
    | Except.error e => Except.error e
  else Except.error TreeError.Unauthorized

/-- Modelled from the spec: the `replace` entrypoint, gated by the same
derived authority as `append` (only the derived Identity may call `append` or
`replace`). -/
def replaceLeaf (caller : List Nat) (acc : TreeAccount) (index : Nat)
    (oldLeaf newLeaf : Hash) (proof : List Hash) : Except TreeError TreeAccount :=
  if caller = acc.authority then
    match acc.tree.replace index oldLeaf newLeaf proof with
    | Except.ok t => Except.ok { acc with tree := t }
    | Except.error e => Except.error e
  else Except.error TreeError.Unauthorized

/-- The observable effect of an `append_note` transaction: the account state,
the published events and the assigned index.  A failing transaction reverts:
the account stays as it was and nothing is published. -/
def runAppendNote (caller : List Nat) (acc : TreeAccount) (note : List Nat) :
    TreeAccount × List NoteLog × Option Nat :=
  match appendNote caller acc note with
  | Except.ok (acc2, ev, index) => (acc2, [ev], some index)
  | Except.error _ => (acc, [], none)

/-- The observable effect of a `create_note_tree` transaction on the tree
account slot: on failure the slot is untouched and the error is surfaced. -/
def runCreateNoteTree (slot : Option TreeAccount) (merkleTree : List Nat) (d b : Nat) :
    Option TreeAccount × Option TreeError :=
  match createNoteTree merkleTree d b with
  | Except.ok acc => (some acc, none)
  | Except.error e => (slot, some e)

/-- A sequence of `append_note` calls in order, collecting the assigned leaf
indices (stopping at the first failure). -/
def appendIndices (caller : List Nat) (acc : TreeAccount) : List (List Nat) → List Nat
  | [] => []
  | note :: rest =>
    match appendNote caller acc note with
    | Except.ok (acc2, _, index) => index :: appendIndices caller acc2 rest
    | Except.error _ => []

instance {ε α : Type} [DecidableEq ε] [DecidableEq α] : DecidableEq (Except ε α) := fun x y =>
  match x, y with
  | Except.ok a, Except.ok b =>
    if h : a = b then Decidable.isTrue (by rw [h])
    else Decidable.isFalse (by intro hh; injection hh; exact h (by assumption))
  | Except.error a, Except.error b =>
    if h : a = b then Decidable.isTrue (by rw [h])
    else Decidable.isFalse (by intro hh; injection hh; exact h (by assumption))
  | Except.ok _, Except.error _ => Decidable.isFalse (by intro hh; injection hh)
  | Except.error _, Except.ok _ => Decidable.isFalse (by intro hh; injection hh)

/-- The note "hello" as its byte sequence. -/
def helloBytes : List Nat := [104, 101, 108, 108, 111]

/-- The note "world" as its byte sequence. -/
def worldBytes : List Nat := [119, 111, 114, 108, 100]

/-- The externally published Keccak-256 digest of the byte string "hello". -/
def helloDigest : List Nat :=
  [28, 138, 255, 149, 6, 133, 194, 237, 75, 195, 23, 79, 52, 114, 40, 123,
   86, 217, 81, 123, 156, 148, 129, 39, 49, 154, 9, 167, 163, 109, 234, 200]

/-! ## Helper lemmas -/

theorem keccak256_length (msg : List Nat) : (keccak256 msg).length = 32 := by
  simp only [keccak256, List.length_flatten, List.map_map, Function.comp_def, laneToBytes,
    List.length_map, List.length_range]
  decide

theorem Tree.append_def (t : Tree) (leaf : Hash) :
    t.append leaf =
      if t.leaves.length < 2 ^ t.depth then
        Except.ok
          ({ t with leaves := t.leaves ++ [leaf],
                    root := merkleRoot t.depth (t.leaves ++ [leaf]),
                    changelog := pushEntry t.bufferSize t.changelog
                      { root := merkleRoot t.depth (t.leaves ++ [leaf]),
                        path := proofPath t.depth (t.leaves ++ [leaf]) t.seq,
                        index := t.seq, seq := t.seq + 1 },
                    seq := t.seq + 1 }, t.seq)
      else Except.error TreeError.TreeFull := rfl

theorem appendNote_def (caller : List Nat) (acc : TreeAccount) (note : List Nat) :
    appendNote caller acc note =
      if caller = acc.authority then
        match acc.tree.append (keccak256 note) with
        | Except.ok (t, index) =>
          Except.ok ({ acc with tree := t }, NoteLog.new (keccak256 note) note, index)
        | Except.error e => Except.error e
      else Except.error TreeError.Unauthorized := rfl

theorem Tree.append_ok {t : Tree} {leaf : Hash} {t2 : Tree} {i : Nat}
    (h : t.append leaf = Except.ok (t2, i)) :
    t.leaves.length < 2 ^ t.depth
    ∧ i = t.seq
    ∧ t2.leaves = t.leaves ++ [leaf]
    ∧ t2.root = merkleRoot t.depth (t.leaves ++ [leaf])
    ∧ t2.seq = t.seq + 1
    ∧ t2.depth = t.depth
    ∧ t2.bufferSize = t.bufferSize
    ∧ t2.changelog = pushEntry t.bufferSize t.changelog
        { root := merkleRoot t.depth (t.leaves ++ [leaf]),
          path := proofPath t.depth (t.leaves ++ [leaf]) t.seq,
          index := t.seq, seq := t.seq + 1 } := by
  rw [Tree.append_def] at h
  split at h
  · rename_i hlt
    injection h with h
    injection h with h1 h2
    subst h1
    subst h2
    exact ⟨hlt, rfl, rfl, rfl, rfl, rfl, rfl, rfl⟩
  · exact absurd h (by simp)

theorem Tree.append_error {t : Tree} {leaf : Hash} {e : TreeError}
    (h : t.append leaf = Except.error e) :
    ¬ t.leaves.length < 2 ^ t.depth ∧ e = TreeError.TreeFull := by
  rw [Tree.append_def] at h
  split at h
  · exact absurd h (by simp)
  · rename_i hge
    injection h with h
    exact ⟨hge, h.symm⟩

theorem appendNote_ok {caller : List Nat} {acc : TreeAccount} {note : List Nat}
    {acc2 : TreeAccount} {ev : NoteLog} {i : Nat}
    (h : appendNote caller acc note = Except.ok (acc2, ev, i)) :
    caller = acc.authority
    ∧ acc.tree.leaves.length < 2 ^ acc.tree.depth
    ∧ ev = NoteLog.new (keccak256 note) note
    ∧ acc2.address = acc.address
    ∧ acc2.authority = acc.authority
    ∧ acc2.tree.leaves = acc.tree.leaves ++ [keccak256 note]
    ∧ acc2.tree.root = merkleRoot acc.tree.depth (acc.tree.leaves ++ [keccak256 note])
    ∧ acc2.tree.seq = acc.tree.seq + 1
    ∧ acc2.tree.depth = acc.tree.depth
    ∧ acc2.tree.bufferSize = acc.tree.bufferSize
    ∧ i = acc.tree.seq := by
  rw [appendNote_def] at h
  split at h
  · rename_i hc
    split at h
    · rename_i t2 i2 hap
      injection h with h
      injection h with h1 h2
      injection h2 with h2 h3
      subst h1
      subst h2
      subst h3
      obtain ⟨hlt, hi, hlv, hrt, hsq, hdp, hbf, -⟩ := Tree.append_ok hap
      exact ⟨hc, hlt, rfl, rfl, rfl, hlv, hrt, hsq, hdp, hbf, hi⟩
    · exact absurd h (by simp)
  · exact absurd h (by simp)

theorem appendNote_unauth (caller : List Nat) (acc : TreeAccount) (note : List Nat)
    (hc : caller ≠ acc.authority) :
    appendNote caller acc note = Except.error TreeError.Unauthorized := by
  rw [appendNote_def, if_neg hc]

theorem runAppendNote_of_ok {caller : List Nat} {acc : TreeAccount} {note : List Nat}
    {acc2 : TreeAccount} {ev : NoteLog} {i : Nat}
    (h : appendNote caller acc note = Except.ok (acc2, ev, i)) :
    runAppendNote caller acc note = (acc2, [ev], some i) := by
  unfold runAppendNote
  rw [h]

theorem runAppendNote_of_error {caller : List Nat} {acc : TreeAccount} {note : List Nat}
    {e : TreeError} (h : appendNote caller acc note = Except.error e) :
    runAppendNote caller acc note = (acc, [], none) := by
  unfold runAppendNote
  rw [h]

/-- The tree state after a successful replace of the leaf at `index` with
`newLeaf`: the leaf set updated, the root recomputed, a change-log entry
pushed, the sequence number incremented. -/
def replacedTree (t : Tree) (index : Nat) (newLeaf : Hash) : Tree :=
  { t with leaves := t.leaves.set index newLeaf,
           root := merkleRoot t.depth (t.leaves.set index newLeaf),
           changelog := pushEntry t.bufferSize t.changelog
             { root := merkleRoot t.depth (t.leaves.set index newLeaf),
               path := proofPath t.depth (t.leaves.set index newLeaf) index,
               index := index, seq := t.seq + 1 },
           seq := t.seq + 1 }

theorem Tree.replace_def (t : Tree) (index : Nat) (oldLeaf newLeaf : Hash)
    (proof : List Hash) :
    t.replace index oldLeaf newLeaf proof =
      if hashClimb oldLeaf index proof = t.root then
        Except.ok (replacedTree t index newLeaf)
      else
        match findValidProof t.changelog index proof with
        | none => Except.error TreeError.ConcurrentModificationConflict
        | some e =>
          if hashClimb oldLeaf index proof = e.root then
            Except.ok (replacedTree t index newLeaf)
          else Except.error TreeError.ProofMismatch := rfl

/-! ## Concrete fixtures for witnesses -/

/-- A fresh depth-1 tree account whose stored authority is the derived one. -/
def accDerived : TreeAccount :=
  { address := [1],
    tree := { depth := 1, bufferSize := 2, leaves := [], root := emptyRoot 1,
              changelog := [{ root := emptyRoot 1, path := proofPath 1 [] 0,
                              index := 0, seq := 0 }],
              seq := 0 },
    authority := derive [1] }

/-- A depth-1 tree account whose two leaves are both occupied. -/
def accFull : TreeAccount :=
  { address := [1],
    tree := { depth := 1, bufferSize := 2, leaves := [zeroHash, zeroHash],
              root := merkleRoot 1 [zeroHash, zeroHash], changelog := [], seq := 2 },
    authority := derive [1] }

/-- A fresh depth-1 tree with an empty change log. -/
def treeFresh : Tree :=
  { depth := 1, bufferSize := 1, leaves := [], root := emptyRoot 1,
    changelog := [], seq := 0 }

/-- The state of `treeFresh` after appending the zero leaf. -/
def treeFreshAppended : Tree :=
  { depth := 1, bufferSize := 1, leaves := [zeroHash],
    root := merkleRoot 1 [zeroHash],
    changelog := [{ root := merkleRoot 1 [zeroHash], path := proofPath 1 [zeroHash] 0,
                    index := 0, seq := 1 }],
    seq := 1 }

/-- A depth-1 tree holding the leaf for "hello", with its change-log entry. -/
def treeOneLeaf : Tree :=
  { depth := 1, bufferSize := 2,
    leaves := [keccak256 helloBytes],
    root := merkleRoot 1 [keccak256 helloBytes],
    changelog := [{ root := merkleRoot 1 [keccak256 helloBytes],
                    path := proofPath 1 [keccak256 helloBytes] 0, index := 0, seq := 1 }],
    seq := 1 }

/-- The change-log entry resident in `treeOneLeaf`. -/
def entryOneLeaf : ChangeLogEntry :=
  { root := merkleRoot 1 [keccak256 helloBytes],
    path := proofPath 1 [keccak256 helloBytes] 0, index := 0, seq := 1 }

/-! ## The claims -/

/-- C1: every append stores as the new leaf of the tree the keccak hash of
the note's raw bytes, a deterministic 32-byte value; in particular the digest
of "hello" is the externally published Keccak-256 value. -/
theorem append_leaf_is_keccak_of_note :
    (∀ (caller : List Nat) (acc : TreeAccount) (note : List Nat),
        ((runAppendNote caller acc note).2.2).isSome = true →
          (runAppendNote caller acc note).1.tree.leaves
            = acc.tree.leaves ++ [keccak256 note]
          ∧ (keccak256 note).length = 32)
    ∧ keccak256 helloBytes = helloDigest := by
  constructor
  · intro caller acc note h
    cases happ : appendNote caller acc note with
    | ok r =>
      obtain ⟨acc2, ev, i⟩ := r
      rw [runAppendNote_of_ok happ]
      obtain ⟨-, -, -, -, -, hlv, -⟩ := appendNote_ok happ
      exact ⟨hlv, keccak256_length note⟩
    | error e =>
      rw [runAppendNote_of_error happ] at h
      simp at h
  · decide

/-- C1 witness: the concrete append of "hello" to a fresh authorized tree
stores exactly the keccak leaf. -/
theorem append_leaf_is_keccak_of_note_witness :
    (runAppendNote (derive [1]) accDerived helloBytes).1.tree.leaves
      = accDerived.tree.leaves ++ [keccak256 helloBytes] :=
  (append_leaf_is_keccak_of_note.1 (derive [1]) accDerived helloBytes (by decide)).1

/-- C2: a caller that does not hold the tree's derived mutation authority
always fails with `Unauthorized` on `append` (and on `replace`), leaving the
account, its events and its root unchanged; the derived Identity itself is
never refused as unauthorized. -/
theorem unauthorized_append_fails :
    ∀ (caller : List Nat) (acc : TreeAccount) (note : List Nat) (index : Nat)
      (oldL newL : Hash) (proof : List Hash),
      (acc.authority = derive acc.address → caller ≠ derive acc.address →
        appendNote caller acc note = Except.error TreeError.Unauthorized
        ∧ runAppendNote caller acc note = (acc, [], none)
        ∧ (runAppendNote caller acc note).1.tree.root = acc.tree.root
        ∧ replaceLeaf caller acc index oldL newL proof = Except.error TreeError.Unauthorized)
      ∧ (caller = acc.authority →
          appendNote caller acc note ≠ Except.error TreeError.Unauthorized) := by
  intro caller acc note index oldL newL proof
  constructor
  · intro ha hc
    have hne : caller ≠ acc.authority := by rw [ha]; exact hc
    have h1 := appendNote_unauth caller acc note hne
    have h2 := runAppendNote_of_error h1
    refine ⟨h1, h2, by rw [h2], ?_⟩
    unfold replaceLeaf
    rw [if_neg hne]
  · intro hc
    rw [appendNote_def, if_pos hc]
    cases hap : acc.tree.append (keccak256 note) with
    | ok r =>
      obtain ⟨t2, i2⟩ := r
      simp
    | error e =>
      have := (Tree.append_error hap).2
      subst this
      simp

/-- C2 witness: a concrete wrong caller is refused with the account untouched,
and the derived authority itself is not refused. -/
theorem unauthorized_append_fails_witness :
    appendNote [9] accDerived helloBytes = Except.error TreeError.Unauthorized
    ∧ runAppendNote [9] accDerived helloBytes = (accDerived, [], none)
    ∧ appendNote (derive [1]) accDerived helloBytes ≠ Except.error TreeError.Unauthorized :=
  ⟨((unauthorized_append_fails [9] accDerived helloBytes 0 zeroHash zeroHash []).1
      (by decide) (by decide)).1,
   ((unauthorized_append_fails [9] accDerived helloBytes 0 zeroHash zeroHash []).1
      (by decide) (by decide)).2.1,
   (unauthorized_append_fails (derive [1]) accDerived helloBytes 0 zeroHash zeroHash []).2
      (by decide)⟩

/-- C3: a successful append publishes exactly one NoteLog event, whose leaf
hash equals the leaf actually appended to the tree (its new last leaf) and
whose note field is the caller's note verbatim. -/
theorem append_emits_single_note_log :
    ∀ (caller : List Nat) (acc : TreeAccount) (note : List Nat),
      ((runAppendNote caller acc note).2.2).isSome = true →
        (runAppendNote caller acc note).2.1 = [NoteLog.new (keccak256 note) note]
        ∧ (runAppendNote caller acc note).1.tree.leaves.getLast? = some (keccak256 note) := by
  intro caller acc note h
  cases happ : appendNote caller acc note with
  | ok r =>
    obtain ⟨acc2, ev, i⟩ := r
    rw [runAppendNote_of_ok happ]
    obtain ⟨-, -, hev, -, -, hlv, -⟩ := appendNote_ok happ
    subst hev
    refine ⟨rfl, ?_⟩
    simp only [hlv]
    exact List.getLast?_concat _
  | error e =>
    rw [runAppendNote_of_error happ] at h
    simp at h

/-- C3 witness: the concrete append of "hello" publishes exactly the one
expected event. -/
theorem append_emits_single_note_log_witness :
    (runAppendNote (derive [1]) accDerived helloBytes).2.1
      = [NoteLog.new (keccak256 helloBytes) helloBytes] :=
  (append_emits_single_note_log (derive [1]) accDerived helloBytes (by decide)).1

/-- C4: every call is atomic: a failing append reverts to the original account
with no event published, and a failing create leaves the account slot
untouched while surfacing the error. -/
theorem append_and_create_atomic :
    (∀ (caller : List Nat) (acc : TreeAccount) (note : List Nat) (e : TreeError),
        appendNote caller acc note = Except.error e →
          runAppendNote caller acc note = (acc, [], none))
    ∧ (∀ (slot : Option TreeAccount) (m : List Nat) (d b : Nat) (e : TreeError),
        createNoteTree m d b = Except.error e →
          runCreateNoteTree slot m d b = (slot, some e)) := by
  constructor
  · intro caller acc note e h
    exact runAppendNote_of_error h
  · intro slot m d b e h
    unfold runCreateNoteTree
    rw [h]

/-- C4 witness: a concrete failing append publishes nothing and reverts, and a
concrete failing create leaves the slot empty. -/
theorem append_and_create_atomic_witness :
    runAppendNote [9] accDerived helloBytes = (accDerived, [], none)
    ∧ runCreateNoteTree none [1] 0 4 = (none, some TreeError.InvalidConfig) :=
  ⟨append_and_create_atomic.1 [9] accDerived helloBytes TreeError.Unauthorized (by decide),
   append_and_create_atomic.2 none [1] 0 4 TreeError.InvalidConfig (by decide)⟩

/-- C5: the mutation authority is derived deterministically from the tree's
address plus the fixed seed material; creation stores exactly that derived
Identity on the new tree account; the signer seeds built at the create and
append code sites are identical; and no append ever changes the stored
authority or address. -/
theorem authority_derivation_consistent :
    createTreeSignerSeeds = appendNoteSignerSeeds
    ∧ (∀ m : List Nat, signerFor (createTreeSignerSeeds m) = derive m
        ∧ signerFor (appendNoteSignerSeeds m) = derive m)
    ∧ (∀ (m : List Nat) (d b : Nat), (createNoteTree m d b).isOk = true →
        (createNoteTree m d b).toOption.map TreeAccount.authority = some (derive m)
        ∧ (createNoteTree m d b).toOption.map TreeAccount.address = some m)
    ∧ (∀ (caller : List Nat) (acc : TreeAccount) (note : List Nat),
        (runAppendNote caller acc note).1.authority = acc.authority
        ∧ (runAppendNote caller acc note).1.address = acc.address) := by
  refine ⟨rfl, fun m => ⟨rfl, rfl⟩, ?_, ?_⟩
  · intro m d b h
    cases hin : initTree d b with
    | ok t =>
      unfold createNoteTree
      rw [hin]
      exact ⟨rfl, rfl⟩
    | error e =>
      unfold createNoteTree at h
      rw [hin] at h
      simp [Except.isOk, Except.toBool] at h
  · intro caller acc note
    cases happ : appendNote caller acc note with
    | ok r =>
      obtain ⟨acc2, ev, i⟩ := r
      rw [runAppendNote_of_ok happ]
      obtain ⟨-, -, -, haddr, hauth, -⟩ := appendNote_ok happ
      exact ⟨hauth, haddr⟩
    | error e =>
      rw [runAppendNote_of_error happ]
      exact ⟨rfl, rfl⟩

/-- C5 witness: a concretely created tree stores the derived authority of its
own address. -/
theorem authority_derivation_consistent_witness :
    (createNoteTree [1] 1 2).toOption.map TreeAccount.authority = some (derive [1])
    ∧ (createNoteTree [1] 1 2).toOption.map TreeAccount.address = some [1] :=
  authority_derivation_consistent.2.2.1 [1] 1 2 (by decide)

/-- C6: creating a tree with a supported configuration yields the canonical
empty root for that depth and sequence number 0; an unsupported configuration
fails with InvalidConfig and creates no tree state. -/
theorem create_tree_config_and_empty_root :
    ∀ (slot : Option TreeAccount) (m : List Nat) (d b : Nat),
      (validConfig d b →
        (createNoteTree m d b).isOk = true
        ∧ (createNoteTree m d b).toOption.map (fun a => a.tree.root) = some (emptyRoot d)
        ∧ (createNoteTree m d b).toOption.map (fun a => a.tree.seq) = some 0
        ∧ (createNoteTree m d b).toOption.map (fun a => a.tree.depth) = some d
        ∧ (createNoteTree m d b).toOption.map (fun a => a.tree.bufferSize) = some b
        ∧ (createNoteTree m d b).toOption.map (fun a => a.tree.leaves) = some [])
      ∧ (¬ validConfig d b →
          createNoteTree m d b = Except.error TreeError.InvalidConfig
          ∧ runCreateNoteTree slot m d b = (slot, some TreeError.InvalidConfig)) := by
  intro slot m d b
  constructor
  · intro hv
    unfold createNoteTree initTree
    rw [if_pos hv]
    exact ⟨rfl, rfl, rfl, rfl, rfl, rfl⟩
  · intro hv
    have h1 : createNoteTree m d b = Except.error TreeError.InvalidConfig := by
      unfold createNoteTree initTree
      rw [if_neg hv]
    refine ⟨h1, ?_⟩
    unfold runCreateNoteTree
    rw [h1]

/-- C6 witness: a concrete supported creation yields the empty root with
sequence number 0, and a too-deep creation fails with InvalidConfig. -/
theorem create_tree_config_and_empty_root_witness :
    ((createNoteTree [1] 2 4).isOk = true
      ∧ (createNoteTree [1] 2 4).toOption.map (fun a => a.tree.root) = some (emptyRoot 2)
      ∧ (createNoteTree [1] 2 4).toOption.map (fun a => a.tree.seq) = some 0
      ∧ (createNoteTree [1] 2 4).toOption.map (fun a => a.tree.depth) = some 2
      ∧ (createNoteTree [1] 2 4).toOption.map (fun a => a.tree.bufferSize) = some 4
      ∧ (createNoteTree [1] 2 4).toOption.map (fun a => a.tree.leaves) = some [])
    ∧ (createNoteTree [1] 31 4 = Except.error TreeError.InvalidConfig
      ∧ runCreateNoteTree none [1] 31 4 = (none, some TreeError.InvalidConfig)) :=
  ⟨(create_tree_config_and_empty_root none [1] 2 4).1 (by decide),
   (create_tree_config_and_empty_root none [1] 31 4).2 (by decide)⟩

theorem appendIndices_from (caller : List Nat) :
    ∀ (notes : List (List Nat)) (acc : TreeAccount),
      caller = acc.authority →
      acc.tree.leaves.length = acc.tree.seq →
      acc.tree.seq + notes.length ≤ 2 ^ acc.tree.depth →
      appendIndices caller acc notes = List.range' acc.tree.seq notes.length := by
  intro notes
  induction notes with
  | nil =>
    intro acc _ _ _
    rfl
  | cons note rest ih =>
    intro acc hc hl hcap
    simp only [List.length_cons] at hcap
    have hlt : acc.tree.leaves.length < 2 ^ acc.tree.depth := by omega
    have happ : appendNote caller acc note =
        Except.ok
          ({ acc with tree := { acc.tree with
                leaves := acc.tree.leaves ++ [keccak256 note],
                root := merkleRoot acc.tree.depth (acc.tree.leaves ++ [keccak256 note]),
                changelog := pushEntry acc.tree.bufferSize acc.tree.changelog
                  { root := merkleRoot acc.tree.depth (acc.tree.leaves ++ [keccak256 note]),
                    path := proofPath acc.tree.depth
                      (acc.tree.leaves ++ [keccak256 note]) acc.tree.seq,
                    index := acc.tree.seq, seq := acc.tree.seq + 1 },
                seq := acc.tree.seq + 1 } },
            NoteLog.new (keccak256 note) note, acc.tree.seq) := by
      rw [appendNote_def, if_pos hc, Tree.append_def, if_pos hlt]
    unfold appendIndices
    rw [happ]
    simp only [List.length_cons]
    rw [List.range'_succ]
    refine congrArg (acc.tree.seq :: ·) ?_
    refine ih _ hc ?_ ?_
    · simp only [List.length_append, List.length_cons, List.length_nil, hl]
    · show acc.tree.seq + 1 + rest.length ≤ 2 ^ acc.tree.depth
      omega

/-- C7: a successful append inserts at the index equal to the current
sequence number, pushes a new change-log entry carrying that index and the
incremented sequence number, and increments the sequence number by one; a
sequence of appends to a fresh tree is assigned indices 0, 1, 2, ... in call
order. -/
theorem append_assigns_sequential_indices :
    (∀ (t : Tree) (leaf : Hash) (t2 : Tree) (i : Nat),
        t.append leaf = Except.ok (t2, i) →
          i = t.seq ∧ t2.seq = t.seq + 1
          ∧ t2.changelog = pushEntry t.bufferSize t.changelog
              { root := merkleRoot t.depth (t.leaves ++ [leaf]),
                path := proofPath t.depth (t.leaves ++ [leaf]) t.seq,
                index := t.seq, seq := t.seq + 1 })
    ∧ (∀ (caller : List Nat) (acc : TreeAccount) (notes : List (List Nat)),
        caller = acc.authority → acc.tree.leaves = [] → acc.tree.seq = 0 →
        notes.length ≤ 2 ^ acc.tree.depth →
          appendIndices caller acc notes = List.range notes.length) := by
  constructor
  · intro t leaf t2 i h
    obtain ⟨-, hi, -, -, hsq, -, -, hlog⟩ := Tree.append_ok h
    exact ⟨hi, hsq, hlog⟩
  · intro caller acc notes hc hlv hs hcap
    rw [List.range_eq_range' notes.length]
    have := appendIndices_from caller notes acc hc (by rw [hlv, hs]; rfl) (by omega)
    rwa [hs] at this

/-- C7 witness: a concrete append to a fresh tree is assigned index 0 with
sequence number 1 and a pushed change-log entry, and two appends to a fresh
authorized tree are assigned the indices 0 and 1. -/
theorem append_assigns_sequential_indices_witness :
    (0 = treeFresh.seq ∧ treeFreshAppended.seq = treeFresh.seq + 1
      ∧ treeFreshAppended.changelog = pushEntry treeFresh.bufferSize treeFresh.changelog
          { root := merkleRoot treeFresh.depth (treeFresh.leaves ++ [zeroHash]),
            path := proofPath treeFresh.depth (treeFresh.leaves ++ [zeroHash]) treeFresh.seq,
            index := treeFresh.seq, seq := treeFresh.seq + 1 })
    ∧ appendIndices (derive [1]) accDerived [helloBytes, worldBytes] = List.range 2 :=
  ⟨append_assigns_sequential_indices.1 treeFresh zeroHash treeFreshAppended 0 (by decide),
   append_assigns_sequential_indices.2 (derive [1]) accDerived [helloBytes, worldBytes]
     (by decide) (by decide) (by decide) (by decide)⟩

/-- C8: when all `2 ^ depth` leaves of a tree are occupied, any further
append fails with TreeFull and leaves the root and the sequence number (and
the whole account) unchanged. -/
theorem append_full_tree_fails :
    ∀ (t : Tree) (leaf : Hash) (caller : List Nat) (acc : TreeAccount) (note : List Nat),
      (t.leaves.length = 2 ^ t.depth → t.append leaf = Except.error TreeError.TreeFull)
      ∧ (acc.tree.leaves.length = 2 ^ acc.tree.depth →
          runAppendNote caller acc note = (acc, [], none)
          ∧ (runAppendNote caller acc note).1.tree.root = acc.tree.root
          ∧ (runAppendNote caller acc note).1.tree.seq = acc.tree.seq) := by
  have hfull : ∀ (t : Tree) (leaf : Hash), t.leaves.length = 2 ^ t.depth →
      t.append leaf = Except.error TreeError.TreeFull := by
    intro t leaf ht
    rw [Tree.append_def, if_neg (by omega)]
  intro t leaf caller acc note
  refine ⟨hfull t leaf, ?_⟩
  intro ha
  by_cases hc : caller = acc.authority
  · have happ : appendNote caller acc note = Except.error TreeError.TreeFull := by
      rw [appendNote_def, if_pos hc, hfull acc.tree (keccak256 note) ha]
    have hrun := runAppendNote_of_error happ
    exact ⟨hrun, by rw [hrun], by rw [hrun]⟩
  · have hrun := runAppendNote_of_error (appendNote_unauth caller acc note hc)
    exact ⟨hrun, by rw [hrun], by rw [hrun]⟩

/-- C8 witness: appending to a concrete full depth-1 tree fails with TreeFull
and the account, root and sequence number stay as they were. -/
theorem append_full_tree_fails_witness :
    accFull.tree.append zeroHash = Except.error TreeError.TreeFull
    ∧ runAppendNote (derive [1]) accFull helloBytes = (accFull, [], none) :=
  ⟨(append_full_tree_fails accFull.tree zeroHash (derive [1]) accFull helloBytes).1
      (by decide),
   ((append_full_tree_fails accFull.tree zeroHash (derive [1]) accFull helloBytes).2
      (by decide)).1⟩

/-- C9: a replace whose proof matches a resident change-log entry and
resolves to the old leaf hash succeeds and updates the root atomically; a
proof matching no resident entry (and not the current root) fails with
ConcurrentModificationConflict; a proof matching an entry to whose root the
old leaf hash does not resolve fails with ProofMismatch. -/
theorem replace_proof_validation :
    ∀ (t : Tree) (index : Nat) (oldL newL : Hash) (proof : List Hash),
      ((∃ e, findValidProof t.changelog index proof = some e
          ∧ hashClimb oldL index proof = e.root) →
        t.replace index oldL newL proof = Except.ok (replacedTree t index newL)
        ∧ (t.replace index oldL newL proof).toOption.map Tree.root
            = some (merkleRoot t.depth (t.leaves.set index newL)))
      ∧ (hashClimb oldL index proof ≠ t.root →
          findValidProof t.changelog index proof = none →
          t.replace index oldL newL proof
            = Except.error TreeError.ConcurrentModificationConflict)
      ∧ (∀ e, hashClimb oldL index proof ≠ t.root →
          findValidProof t.changelog index proof = some e →
          hashClimb oldL index proof ≠ e.root →
          t.replace index oldL newL proof = Except.error TreeError.ProofMismatch) := by
  intro t index oldL newL proof
  refine ⟨?_, ?_, ?_⟩
  · rintro ⟨e, hfind, hroot⟩
    have hok : t.replace index oldL newL proof = Except.ok (replacedTree t index newL) := by
      rw [Tree.replace_def]
      by_cases hcur : hashClimb oldL index proof = t.root
      · rw [if_pos hcur]
      · rw [if_neg hcur, hfind]
        show (if hashClimb oldL index proof = e.root then
            Except.ok (replacedTree t index newL)
          else Except.error TreeError.ProofMismatch) = _
        rw [if_pos hroot]
    exact ⟨hok, by rw [hok]; rfl⟩
  · intro hcur hnone
    rw [Tree.replace_def, if_neg hcur, hnone]
  · intro e hcur hfind hroot
    rw [Tree.replace_def, if_neg hcur, hfind]
    show (if hashClimb oldL index proof = e.root then
        Except.ok (replacedTree t index newL)
      else Except.error TreeError.ProofMismatch) = _
    rw [if_neg hroot]

/-- C9 witness: on a concrete one-leaf tree, a valid resident proof replaces
the "hello" leaf with the "world" leaf, a junk proof fails with
ConcurrentModificationConflict, and a resident proof presented with the wrong
old leaf fails with ProofMismatch. -/
theorem replace_proof_validation_witness :
    treeOneLeaf.replace 0 (keccak256 helloBytes) (keccak256 worldBytes)
        (proofPath 1 [keccak256 helloBytes] 0)
      = Except.ok (replacedTree treeOneLeaf 0 (keccak256 worldBytes))
    ∧ treeOneLeaf.replace 0 (keccak256 helloBytes) (keccak256 worldBytes) [[1]]
      = Except.error TreeError.ConcurrentModificationConflict
    ∧ treeOneLeaf.replace 0 zeroHash (keccak256 worldBytes)
        (proofPath 1 [keccak256 helloBytes] 0)
      = Except.error TreeError.ProofMismatch :=
  ⟨((replace_proof_validation treeOneLeaf 0 (keccak256 helloBytes) (keccak256 worldBytes)
      (proofPath 1 [keccak256 helloBytes] 0)).1 ⟨entryOneLeaf, by decide, by decide⟩).1,
   (replace_proof_validation treeOneLeaf 0 (keccak256 helloBytes) (keccak256 worldBytes)
      [[1]]).2.1 (by decide) (by decide),
   (replace_proof_validation treeOneLeaf 0 zeroHash (keccak256 worldBytes)
      (proofPath 1 [keccak256 helloBytes] 0)).2.2 entryOneLeaf
      (by decide) (by decide) (by decide)⟩

/-- C10: the append entrypoint performs no validation of the note: success
depends only on the caller's authority and the tree's capacity, never on the
note's length or content, and every note (the empty one included) is hashed
into the leaf and embedded verbatim in the published event. -/
theorem append_note_no_validation :
    ∀ (caller : List Nat) (acc : TreeAccount) (note : List Nat),
      ((appendNote caller acc note).isOk = true
        ↔ caller = acc.authority ∧ acc.tree.leaves.length < 2 ^ acc.tree.depth)
      ∧ ((appendNote caller acc note).isOk = true →
          (runAppendNote caller acc note).2.1 = [NoteLog.new (keccak256 note) note]) := by
  intro caller acc note
  constructor
  · constructor
    · intro h
      cases happ : appendNote caller acc note with
      | ok r =>
        obtain ⟨acc2, ev, i⟩ := r
        obtain ⟨hc, hlt, -⟩ := appendNote_ok happ
        exact ⟨hc, hlt⟩
      | error e =>
        rw [happ] at h
        simp [Except.isOk, Except.toBool] at h
    · rintro ⟨hc, hlt⟩
      rw [appendNote_def, if_pos hc, Tree.append_def, if_pos hlt]
      rfl
  · intro h
    cases happ : appendNote caller acc note with
    | ok r =>
      obtain ⟨acc2, ev, i⟩ := r
      rw [runAppendNote_of_ok happ]
      obtain ⟨-, -, hev, -⟩ := appendNote_ok happ
      rw [hev]
    | error e =>
      rw [happ] at h
      simp [Except.isOk, Except.toBool] at h

/-- C10 witness: appending the empty note proceeds exactly like any other
note: the success condition is the capacity-and-authority one, and the event
embeds the empty note with its keccak leaf. -/
theorem append_note_no_validation_witness :
    ((appendNote (derive [1]) accDerived []).isOk = true
      ↔ derive [1] = accDerived.authority
        ∧ accDerived.tree.leaves.length < 2 ^ accDerived.tree.depth)
    ∧ (runAppendNote (derive [1]) accDerived []).2.1
        = [NoteLog.new (keccak256 []) []] :=
  ⟨(append_note_no_validation (derive [1]) accDerived []).1,
   (append_note_no_validation (derive [1]) accDerived []).2 (by decide)⟩

end CompressedNotes
